import Mathlib

/-!
Shallow embedding of the floor-plan annotator core (store.ts, canvas.ts,
main.ts of floor-plan-konva).  JavaScript numbers are modelled as rationals
(ℚ); row numbers are integers (ℤ).  Fallible lookups return Option.
-/

/-- A stored point: `PointData` from types.ts. -/
structure PointData where
  id : String
  x : ℚ
  y : ℚ
  size : ℚ
  rowNum : ℤ
  deriving DecidableEq, Repr

/-- The comparator used by `this.points.sort((a, b) => a.rowNum - b.rowNum)`. -/
def rowLe (a b : PointData) : Prop := a.rowNum ≤ b.rowNum

instance : DecidableRel rowLe := fun a b => inferInstanceAs (Decidable (a.rowNum ≤ b.rowNum))

instance : IsTotal PointData rowLe := ⟨fun a b => le_total a.rowNum b.rowNum⟩

instance : IsTrans PointData rowLe := ⟨fun _ _ _ h h2 => le_trans h h2⟩

/-- `points.sort((a, b) => a.rowNum - b.rowNum)`: a sort by ascending rowNum. -/
def sortByRow (l : List PointData) : List PointData := List.insertionSort rowLe l

/-- Store-visible state relevant to the claims: the point list, the selection,
the `localStorage` slot written by `saveToLocal` and read by `loadFromLocal`,
and a count of `notify()` calls. -/
structure StoreState where
  points : List PointData
  selectedPointId : Option String
  storage : Option (List PointData)
  notifications : ℕ
  deriving DecidableEq, Repr

/-- The store's initial state: empty point list, nothing selected, nothing saved. -/
def initState : StoreState :=
  { points := [], selectedPointId := none, storage := none, notifications := 0 }

/-- `Store.addPoint`: no-op if a point with the same rowNum exists; otherwise
push, sort by rowNum, save to localStorage, notify. -/
def addPoint (s : StoreState) (point : PointData) : StoreState :=
  if s.points.any (fun p => p.rowNum = point.rowNum) then s
  else
    let pts := sortByRow (s.points ++ [point])
    { s with points := pts, storage := some pts, notifications := s.notifications + 1 }

/-- Helper for `Store.removePoint`: `findIndex` + `splice(index, 1)` removes the
first point whose id matches and returns it. -/
def removeFirst (id : String) : List PointData → List PointData × Option PointData
  | [] => ([], none)
  | p :: ps =>
    if p.id = id then (ps, some p)
    else
      let r := removeFirst id ps
      (p :: r.1, r.2)

/-- `Store.removePoint`: removes by id; returns `none` (undefined) and leaves
everything unchanged when no point matches; clears the selection when the
removed id was selected; saves and notifies on success. -/
def removePoint (s : StoreState) (id : String) : StoreState × Option PointData :=
  match removeFirst id s.points with
  | (_, none) => (s, none)
  | (pts, some p) =>
    ({ s with
        points := pts,
        selectedPointId := if s.selectedPointId = some id then none else s.selectedPointId,
        storage := some pts,
        notifications := s.notifications + 1 }, some p)

/-- `Store.clearAllPoints`: empties the list and the selection, saves, notifies. -/
def clearAllPoints (s : StoreState) : StoreState :=
  { s with points := [], selectedPointId := none, storage := some [],
           notifications := s.notifications + 1 }

/-- `Store.hasRowNum`. -/
def hasRowNum (s : StoreState) (rowNum : ℤ) : Bool :=
  s.points.any (fun p => p.rowNum = rowNum)

/-- Whether some point occupies row `i` (the membership test of
`getNextAvailableRow`'s row set). -/
def usedRow (points : List PointData) (i : ℤ) : Bool :=
  points.any (fun p => p.rowNum = i)

/-- The loop body of `Store.getNextAvailableRow`: scan `fuel` consecutive
integers starting at `i`, returning the first one not used by any point;
`215` when the scan is exhausted. -/
def nextFrom (points : List PointData) : ℤ → ℕ → ℤ
  | _, 0 => 215
  | i, fuel + 1 =>
    if usedRow points i then nextFrom points (i + 1) fuel else i

/-- `Store.getNextAvailableRow`: first row in 1..215 not used; 215 if all taken. -/
def getNextAvailableRow (points : List PointData) : ℤ :=
  nextFrom points 1 215

/-- An item handed to `importPoints`: raw JSON data after `handleJSONImport`
normalisation, so `size` may be absent and the caller may supply an id. -/
structure RawPoint where
  id : String
  x : ℚ
  y : ℚ
  size : Option ℚ
  rowNum : ℤ
  deriving DecidableEq, Repr

/-- `item.size || 24`: JavaScript `||` falls through on the falsy values
`undefined` and `0`. -/
def sizeOrDefault : Option ℚ → ℚ
  | none => 24
  | some s => if s = 0 then 24 else s

/-- The generated id `c_${item.rowNum}_${Date.now()}_${random}`; the
timestamp-and-random suffix is modelled by the item's position `n` in
the import batch. -/
def genId (rowNum : ℤ) (n : ℕ) : String :=
  "c_" ++ toString rowNum ++ "_" ++ toString n

/-- Whether `importPoints` keeps an item: `item.rowNum >= 1 && item.rowNum <= 215`. -/
def rowInRange (r : ℤ) : Prop := 1 ≤ r ∧ r ≤ 215

instance : DecidablePred rowInRange := fun r => inferInstanceAs (Decidable (1 ≤ r ∧ r ≤ 215))

/-- The `forEach` body of `Store.importPoints`: walk the input, keep items
with in-range rows, rebuild each kept item with a generated id, copied
x/y/rowNum and defaulted size.  `n` is the running item position feeding the
id nonce. -/
def buildImports : ℕ → List RawPoint → List PointData
  | _, [] => []
  | n, it :: rest =>
    if rowInRange it.rowNum then
      { id := genId it.rowNum n, x := it.x, y := it.y,
        size := sizeOrDefault it.size, rowNum := it.rowNum } :: buildImports (n + 1) rest
    else buildImports (n + 1) rest

/-- `Store.importPoints` on the list level: drop out-of-range rows, rebuild
the kept items, then sort by rowNum. -/
def importPoints (data : List RawPoint) : List PointData :=
  sortByRow (buildImports 0 data)

/-- `Store.importPoints` on the store state: replaces the whole list, saves,
notifies.  The selection is untouched by the source. -/
def importPointsState (s : StoreState) (data : List RawPoint) : StoreState :=
  { s with points := importPoints data, storage := some (importPoints data),
           notifications := s.notifications + 1 }

/-- `Store.loadFromLocal`: when the storage slot holds a saved array, install
it as the point list and notify; otherwise leave the state unchanged. -/
def loadFromLocal (s : StoreState) : StoreState :=
  match s.storage with
  | some l => { s with points := l, notifications := s.notifications + 1 }
  | none => s

/-- States of the store reachable by the point-list operations, starting from
the empty store, with arbitrary arguments. -/
inductive Reach : StoreState → Prop
  | init : Reach initState
  | add (s : StoreState) (p : PointData) : Reach s → Reach (addPoint s p)
  | remove (s : StoreState) (id : String) : Reach s → Reach (removePoint s id).1
  | clear (s : StoreState) : Reach s → Reach (clearAllPoints s)
  | importOp (s : StoreState) (data : List RawPoint) : Reach s → Reach (importPointsState s data)
  | load (s : StoreState) : Reach s → Reach (loadFromLocal s)

/-- Reachability when every `addPoint` argument has an in-range row number, as
the in-repo caller `addPointAtPosition` guarantees before calling. -/
inductive ReachValid : StoreState → Prop
  | init : ReachValid initState
  | add (s : StoreState) (p : PointData) : rowInRange p.rowNum → ReachValid s →
      ReachValid (addPoint s p)
  | remove (s : StoreState) (id : String) : ReachValid s → ReachValid (removePoint s id).1
  | clear (s : StoreState) : ReachValid s → ReachValid (clearAllPoints s)
  | importOp (s : StoreState) (data : List RawPoint) : ReachValid s →
      ReachValid (importPointsState s data)
  | load (s : StoreState) : ReachValid s → ReachValid (loadFromLocal s)

/-- The pan/zoom viewport: uniform scale plus screen-space offset. -/
structure Viewport where
  scale : ℚ
  offsetX : ℚ
  offsetY : ℚ
  deriving DecidableEq, Repr

/-- `Store.setScale`: `Math.max(0.1, Math.min(6, scale))`. -/
def setScaleClamp (s : ℚ) : ℚ := max (1/10) (min 6 s)

/-- Screen-to-image conversion on one axis: `(screen - offset) / scale`, as in
the wheel handler's `mousePointTo`. -/
def toImageCoord (screen offset scale : ℚ) : ℚ := (screen - offset) / scale

/-- `zoomAt`: the shared math of the wheel handler and `CanvasManager.zoom`.
New scale is the old one times the factor, clamped to [0.1, 6]; the new offset
keeps the image point under the pivot fixed. -/
def zoomAt (pivotX pivotY factor : ℚ) (v : Viewport) : Viewport :=
  let oldScale := v.scale
  let newScale := setScaleClamp (oldScale * factor)
  let mouseX := (pivotX - v.offsetX) / oldScale
  let mouseY := (pivotY - v.offsetY) / oldScale
  { scale := newScale,
    offsetX := pivotX - mouseX * newScale,
    offsetY := pivotY - mouseY * newScale }

/-- `CanvasManager.fitToContent`: frames the fixed fractional sub-region
(left 15%, top 28%, width 72%, height 48%) with a 0.92 margin, clamps the
scale to [0.3, 4], and solves the offset from the container center.  The
scale is stored through `Store.setScale`, hence the outer clamp. -/
def fitToContent (imageWidth imageHeight containerWidth containerHeight : ℚ) : Viewport :=
  let contentLeft := imageWidth * (15/100)
  let contentTop := imageHeight * (28/100)
  let contentWidth := imageWidth * (72/100)
  let contentHeight := imageHeight * (48/100)
  let scale := min (containerWidth / contentWidth) (containerHeight / contentHeight) * (92/100)
  let clampedScale := max (3/10) (min 4 scale)
  { scale := setScaleClamp clampedScale,
    offsetX := containerWidth / 2 - (contentLeft + contentWidth / 2) * clampedScale,
    offsetY := containerHeight / 2 - (contentTop + contentHeight / 2) * clampedScale }

/-- Marker circle radius set by `createPointShape` and `updateAllPointSizes`:
`visualSize = point.size / state.scale`, radius `visualSize / 2`. -/
def visualRadius (size scale : ℚ) : ℚ := (size / scale) / 2

/-- Marker stroke width: `Math.max(1, 2 / state.scale)`. -/
def strokeWidthFor (scale : ℚ) : ℚ := max 1 (2 / scale)

/-- Marker label font size: `Math.max(8, 11 / state.scale)`. -/
def fontSizeFor (scale : ℚ) : ℚ := max 8 (11 / scale)

/-- A row's external dataset record (`PlateData` from types.ts). -/
structure PlateData where
  plate : String
  signals : List (String × ℚ)
  deriving DecidableEq, Repr

/-- One record of `Store.exportFullData`: `{row, x, y, size, ...plateData}`;
the spread contributes `plate`/`signals` when the dataset has the row. -/
structure ExportRecord where
  row : ℤ
  x : ℚ
  y : ℚ
  size : ℚ
  plate : Option String
  signals : Option (List (String × ℚ))
  deriving DecidableEq, Repr

/-- `Store.getPlateData`: `excelData[rowNum - 1] || null` (1-based row). -/
def getPlateData (excelData : List PlateData) (rowNum : ℤ) : Option PlateData :=
  if h : 0 ≤ rowNum - 1 ∧ (rowNum - 1).toNat < excelData.length then
    some (excelData.get ⟨(rowNum - 1).toNat, h.2⟩)
  else none

/-- `Store.exportFullData`. -/
def exportFullData (excelData : List PlateData) (points : List PointData) : List ExportRecord :=
  points.map (fun p =>
    match getPlateData excelData p.rowNum with
    | some pd => { row := p.rowNum, x := p.x, y := p.y, size := p.size,
                   plate := some pd.plate, signals := some pd.signals }
    | none => { row := p.rowNum, x := p.x, y := p.y, size := p.size,
                plate := none, signals := none })

/-- `handleJSONImport` normalisation of one export record:
`{...item, rowNum: item.rowNum || item.row}` — export records carry no
`rowNum` field, so the legacy `row` is used; `size` is present. -/
def normalizeRecord (e : ExportRecord) : RawPoint :=
  { id := "", x := e.x, y := e.y, size := some e.size, rowNum := e.row }

/-- The rowNum/x/y/size view of a point, used for multiset comparison. -/
def proj (p : PointData) : ℤ × ℚ × ℚ × ℚ := (p.rowNum, p.x, p.y, p.size)

/-! ### Helper lemmas -/

lemma setScaleClamp_pos (s : ℚ) : 0 < setScaleClamp s :=
  lt_of_lt_of_le (by norm_num) (le_max_left _ _)

lemma mem_sortByRow {l : List PointData} {q : PointData} : q ∈ sortByRow l ↔ q ∈ l :=
  List.mem_insertionSort rowLe

lemma sortByRow_perm (l : List PointData) : (sortByRow l).Perm l :=
  List.perm_insertionSort rowLe l

lemma sortByRow_sorted (l : List PointData) : (sortByRow l).Pairwise rowLe :=
  List.sorted_insertionSort rowLe l

/-! ### C1: zoom pivot invariance -/

/-- C1: zooming clamps the new scale to [0.1, 6] and keeps the image-space
point under the pivot fixed, exactly (hence within any floating tolerance);
from viewport (1, 0, 0), zooming at pivot (100, 100) with factor 2 yields
scale 2 and offset (-100, -100). -/
theorem zoomAt_pivot_invariant (v : Viewport) (pivotX pivotY factor : ℚ)
    (_hlo : 1/10 ≤ v.scale) (_hhi : v.scale ≤ 6) :
    (zoomAt pivotX pivotY factor v).scale = setScaleClamp (v.scale * factor) ∧
    toImageCoord pivotX (zoomAt pivotX pivotY factor v).offsetX
        (zoomAt pivotX pivotY factor v).scale = toImageCoord pivotX v.offsetX v.scale ∧
    toImageCoord pivotY (zoomAt pivotX pivotY factor v).offsetY
        (zoomAt pivotX pivotY factor v).scale = toImageCoord pivotY v.offsetY v.scale ∧
    zoomAt 100 100 2 { scale := 1, offsetX := 0, offsetY := 0 }
      = { scale := 2, offsetX := -100, offsetY := -100 } := by
  have hns : setScaleClamp (v.scale * factor) ≠ 0 := (setScaleClamp_pos _).ne'
  have hx : ∀ pivot offset : ℚ,
      toImageCoord pivot (pivot - (pivot - offset) / v.scale * setScaleClamp (v.scale * factor))
        (setScaleClamp (v.scale * factor)) = toImageCoord pivot offset v.scale := by
    intro pivot offset
    unfold toImageCoord
    rw [sub_sub_cancel, mul_div_assoc, div_self hns, mul_one]
  refine ⟨rfl, hx pivotX v.offsetX, hx pivotY v.offsetY, ?_⟩
  have h2 : setScaleClamp (1 * 2) = 2 := by norm_num [setScaleClamp]
  simp only [zoomAt, h2]
  norm_num

/-- Witness for C1 at viewport (1, 0, 0), pivot (100, 100), factor 2. -/
theorem zoomAt_pivot_invariant_witness :
    toImageCoord 100
        (zoomAt 100 100 2 { scale := 1, offsetX := 0, offsetY := 0 }).offsetX
        (zoomAt 100 100 2 { scale := 1, offsetX := 0, offsetY := 0 }).scale
      = toImageCoord 100 0 1 :=
  (zoomAt_pivot_invariant { scale := 1, offsetX := 0, offsetY := 0 } 100 100 2
    (by norm_num) (by norm_num)).2.1

/-! ### C9: next available row -/

lemma nextFrom_spec (points : List PointData) (fuel : ℕ) :
    ∀ i : ℤ,
      (i ≤ nextFrom points i fuel ∧ nextFrom points i fuel < i + fuel ∧
        usedRow points (nextFrom points i fuel) = false ∧
        ∀ j : ℤ, i ≤ j → j < nextFrom points i fuel → usedRow points j = true) ∨
      (nextFrom points i fuel = 215 ∧
        ∀ j : ℤ, i ≤ j → j < i + fuel → usedRow points j = true) := by
  induction fuel with
  | zero =>
    intro i
    exact Or.inr ⟨rfl, fun j hj hj2 => absurd hj2 (by push_cast; omega)⟩
  | succ n ih =>
    intro i
    by_cases h : usedRow points i = true
    · have hrw : nextFrom points i (n + 1) = nextFrom points (i + 1) n := by
        rw [nextFrom, if_pos h]
      rcases ih (i + 1) with ⟨h1, h2, h3, h4⟩ | ⟨h1, h2⟩
      · refine Or.inl ⟨by omega, by push_cast at h2 ⊢; omega, hrw ▸ h3, ?_⟩
        intro j hj hj2
        rcases eq_or_lt_of_le hj with hji | hji
        · exact hji ▸ h
        · exact h4 j (by omega) (by rw [hrw] at hj2; exact hj2)
      · refine Or.inr ⟨hrw.trans h1, ?_⟩
        intro j hj hj2
        rcases eq_or_lt_of_le hj with hji | hji
        · exact hji ▸ h
        · exact h2 j (by omega) (by push_cast at hj2 ⊢; omega)
    · have hrw : nextFrom points i (n + 1) = i := by
        rw [nextFrom, if_neg h]
      refine Or.inl ⟨le_of_eq hrw.symm, by rw [hrw]; push_cast; omega,
        by rw [hrw]; exact Bool.eq_false_iff.mpr h, ?_⟩
      intro j hj hj2
      rw [hrw] at hj2
      omega

/-- C9: `getNextAvailableRow` returns the least row in [1, 215] not used by
any current point, and saturates at 215 when every row is taken. -/
theorem getNextAvailableRow_least (points : List PointData) :
    ((∃ i : ℤ, 1 ≤ i ∧ i ≤ 215 ∧ usedRow points i = false) →
      IsLeast {i : ℤ | 1 ≤ i ∧ i ≤ 215 ∧ usedRow points i = false}
        (getNextAvailableRow points)) ∧
    ((∀ i : ℤ, 1 ≤ i → i ≤ 215 → usedRow points i = true) →
      getNextAvailableRow points = 215) := by
  have hg : getNextAvailableRow points = nextFrom points 1 215 := rfl
  have hs := nextFrom_spec points 215 1
  constructor
  · rintro ⟨i0, hi1, hi2, hi3⟩
    rcases hs with ⟨h1, h2, h3, h4⟩ | ⟨h1, h2⟩
    · constructor
      · exact ⟨hg ▸ h1, by rw [hg]; omega, hg ▸ h3⟩
      · intro j hj
        by_contra hlt
        push_neg at hlt
        rw [hg] at hlt
        have := h4 j hj.1 hlt
        rw [hj.2.2] at this
        exact Bool.false_ne_true this
    · have := h2 i0 hi1 (by omega)
      rw [hi3] at this
      exact absurd this Bool.false_ne_true
  · intro hall
    rcases hs with ⟨h1, h2, h3, h4⟩ | ⟨h1, _⟩
    · have := hall (nextFrom points 1 215) h1 (by omega)
      rw [h3] at this
      exact absurd this Bool.false_ne_true
    · exact hg ▸ h1

/-- A concrete store content: points on rows 1 and 5 (the spec's example). -/
def examplePoints : List PointData :=
  [{ id := "a", x := 100, y := 50, size := 24, rowNum := 1 },
   { id := "b", x := 0, y := 0, size := 24, rowNum := 5 }]

/-- Witness for C9: with rows 1 and 5 taken, 2 is the least free row and it is
what `getNextAvailableRow` returns. -/
theorem getNextAvailableRow_least_witness :
    getNextAvailableRow examplePoints = 2 ∧
    IsLeast {i : ℤ | 1 ≤ i ∧ i ≤ 215 ∧ usedRow examplePoints i = false} 2 := by
  have h := (getNextAvailableRow_least examplePoints).1 ⟨2, by decide, by decide, by decide⟩
  have hr : getNextAvailableRow examplePoints = 2 := by decide
  exact ⟨hr, hr ▸ h⟩

/-! ### C7: addPoint keeps rowNums unique and the list sorted -/

/-- Strictly increasing rowNums: sortedness plus uniqueness in one relation. -/
def rowsStrictSorted (l : List PointData) : Prop :=
  l.Pairwise (fun a b => a.rowNum < b.rowNum)

lemma addPoint_preserves_strictSorted (s : StoreState) (p : PointData)
    (h : rowsStrictSorted s.points) : rowsStrictSorted (addPoint s p).points := by
  unfold addPoint
  by_cases hc : s.points.any (fun q => q.rowNum = p.rowNum) = true
  · rw [if_pos hc]; exact h
  · rw [if_neg hc]
    have hperm := sortByRow_perm (s.points ++ [p])
    have hsorted := sortByRow_sorted (s.points ++ [p])
    have hnotin : ∀ q ∈ s.points, q.rowNum ≠ p.rowNum := by
      intro q hq hEq
      exact hc (List.any_eq_true.mpr ⟨q, hq, decide_eq_true hEq⟩)
    have hne : (s.points ++ [p]).Pairwise (fun a b => a.rowNum ≠ b.rowNum) := by
      rw [List.pairwise_append]
      refine ⟨h.imp (fun hab => ne_of_lt hab), List.pairwise_singleton _ _, ?_⟩
      intro a ha b hb
      rw [List.mem_singleton] at hb
      subst hb
      exact hnotin a ha
    have hne2 : (sortByRow (s.points ++ [p])).Pairwise (fun a b => a.rowNum ≠ b.rowNum) :=
      (hperm.pairwise_iff (fun hab => hab.symm)).mpr hne
    exact (hsorted.and hne2).imp (fun hab => lt_of_le_of_ne hab.1 hab.2)

lemma foldl_addPoint_strictSorted (l : List PointData) :
    ∀ s : StoreState, rowsStrictSorted s.points →
      rowsStrictSorted ((l.foldl addPoint s).points) := by
  induction l with
  | nil => intro s h; exact h
  | cons p rest ih => intro s h; exact ih _ (addPoint_preserves_strictSorted s p h)

/-- C7: after any sequence of `addPoint` calls from the empty store, no two
points share a rowNum and the list is in ascending rowNum order; `addPoint`
with a present rowNum is a full no-op (same state, storage and notification
count), and otherwise inserts the point and re-sorts. -/
theorem addPoint_rows_unique :
    (∀ l : List PointData,
      (l.foldl addPoint initState).points.Pairwise (fun a b => a.rowNum ≠ b.rowNum) ∧
      (l.foldl addPoint initState).points.Pairwise rowLe) ∧
    (∀ (s : StoreState) (p : PointData), hasRowNum s p.rowNum = true → addPoint s p = s) ∧
    (∀ (s : StoreState) (p : PointData), hasRowNum s p.rowNum = false →
      (addPoint s p).points.Perm (p :: s.points) ∧
      (addPoint s p).points.Pairwise rowLe) := by
  refine ⟨?_, ?_, ?_⟩
  · intro l
    have h := foldl_addPoint_strictSorted l initState List.Pairwise.nil
    exact ⟨h.imp (fun hab => ne_of_lt hab), h.imp (fun hab => le_of_lt hab)⟩
  · intro s p h
    unfold hasRowNum at h
    unfold addPoint
    rw [if_pos h]
  · intro s p h
    unfold hasRowNum at h
    unfold addPoint
    rw [if_neg (by rw [h]; exact Bool.false_ne_true)]
    exact ⟨(sortByRow_perm _).trans (List.perm_append_singleton p s.points),
      sortByRow_sorted _⟩

/-- A point on row 1 and a different point colliding on row 1. -/
def pointRow1 : PointData := { id := "a", x := 100, y := 50, size := 24, rowNum := 1 }

/-- A second point whose rowNum collides with `pointRow1`. -/
def dupRow1 : PointData := { id := "dup", x := 7, y := 8, size := 24, rowNum := 1 }

/-- Witness for C7: adding a second point on row 1 is a no-op, and a concrete
add sequence yields pairwise-distinct rowNums. -/
theorem addPoint_rows_unique_witness :
    addPoint (addPoint initState pointRow1) dupRow1 = addPoint initState pointRow1 ∧
    ([pointRow1, dupRow1].foldl addPoint initState).points.Pairwise
      (fun a b => a.rowNum ≠ b.rowNum) :=
  ⟨addPoint_rows_unique.2.1 (addPoint initState pointRow1) dupRow1 (by decide),
   (addPoint_rows_unique.1 [pointRow1, dupRow1]).1⟩

/-! ### C2: row-range invariant -/

lemma removeFirst_mem {id : String} : ∀ {l : List PointData} {q : PointData},
    q ∈ (removeFirst id l).1 → q ∈ l := by
  intro l
  induction l with
  | nil => intro q h; exact absurd h (by simp [removeFirst])
  | cons p ps ih =>
    intro q h
    unfold removeFirst at h
    by_cases hp : p.id = id
    · rw [if_pos hp] at h
      exact List.mem_cons_of_mem p h
    · rw [if_neg hp] at h
      rcases List.mem_cons.mp h with h1 | h1
      · exact h1 ▸ List.mem_cons_self p ps
      · exact List.mem_cons_of_mem p (ih h1)

lemma mem_buildImports : ∀ (n : ℕ) (data : List RawPoint) (q : PointData),
    q ∈ buildImports n data →
    ∃ it ∈ data, rowInRange it.rowNum ∧ q.x = it.x ∧ q.y = it.y ∧ q.rowNum = it.rowNum ∧
      q.size = sizeOrDefault it.size ∧ ∃ m, q.id = genId it.rowNum m := by
  intro n data
  induction data generalizing n with
  | nil => intro q h; exact absurd h (by simp [buildImports])
  | cons it rest ih =>
    intro q h
    unfold buildImports at h
    by_cases hr : rowInRange it.rowNum
    · rw [if_pos hr] at h
      rcases List.mem_cons.mp h with h1 | h1
      · exact ⟨it, List.mem_cons_self it rest,
          hr, by rw [h1], by rw [h1], by rw [h1], by rw [h1], n, by rw [h1]⟩
      · obtain ⟨it2, hm, hprops⟩ := ih (n + 1) q h1
        exact ⟨it2, List.mem_cons_of_mem it hm, hprops⟩
    · rw [if_neg hr] at h
      obtain ⟨it2, hm, hprops⟩ := ih (n + 1) q h
      exact ⟨it2, List.mem_cons_of_mem it hm, hprops⟩

lemma mem_importPoints {data : List RawPoint} {q : PointData} (h : q ∈ importPoints data) :
    ∃ it ∈ data, rowInRange it.rowNum ∧ q.x = it.x ∧ q.y = it.y ∧ q.rowNum = it.rowNum ∧
      q.size = sizeOrDefault it.size ∧ ∃ m, q.id = genId it.rowNum m :=
  mem_buildImports 0 data q (mem_sortByRow.mp h)

/-- The joint range invariant: all live points and all saved points have
in-range rowNums. -/
def RangeInv (s : StoreState) : Prop :=
  (∀ p ∈ s.points, rowInRange p.rowNum) ∧
  (∀ l, s.storage = some l → ∀ p ∈ l, rowInRange p.rowNum)

lemma reachValid_rangeInv : ∀ s : StoreState, ReachValid s → RangeInv s := by
  intro s h
  induction h with
  | init => exact ⟨fun p hp => absurd hp (by simp [initState]), fun l hl => by simp [initState] at hl⟩
  | add s p hr _ ih =>
    unfold addPoint
    by_cases hc : s.points.any (fun q => q.rowNum = p.rowNum) = true
    · rw [if_pos hc]; exact ih
    · rw [if_neg hc]
      have hmem : ∀ q ∈ sortByRow (s.points ++ [p]), rowInRange q.rowNum := by
        intro q hq
        rcases List.mem_append.mp (mem_sortByRow.mp hq) with h1 | h1
        · exact ih.1 q h1
        · rw [List.mem_singleton] at h1
          exact h1 ▸ hr
      exact ⟨hmem, fun l hl => by rw [Option.some_inj] at hl; exact hl ▸ hmem⟩
  | remove s id _ ih =>
    unfold removePoint
    rcases hrf : removeFirst id s.points with ⟨pts, r⟩
    cases r with
    | none => exact ih
    | some p =>
      have hmem : ∀ q ∈ pts, rowInRange q.rowNum := by
        intro q hq
        exact ih.1 q (removeFirst_mem (by rw [hrf]; exact hq))
      exact ⟨hmem, fun l hl => by rw [Option.some_inj] at hl; exact hl ▸ hmem⟩
  | clear s _ ih =>
    exact ⟨fun p hp => absurd hp (by simp [clearAllPoints]),
      fun l hl => by
        simp only [clearAllPoints, Option.some_inj] at hl
        intro p hp
        rw [← hl] at hp
        exact absurd hp (List.not_mem_nil p)⟩
  | importOp s data _ ih =>
    have hmem : ∀ q ∈ importPoints data, rowInRange q.rowNum := by
      intro q hq
      obtain ⟨it, _, hr, _, _, hrow, _⟩ := mem_importPoints hq
      exact hrow ▸ hr
    exact ⟨hmem, fun l hl => by
      simp only [importPointsState, Option.some_inj] at hl
      exact hl ▸ hmem⟩
  | load s _ ih =>
    unfold loadFromLocal
    rcases hst : s.storage with _ | l
    · exact ih
    · refine ⟨ih.2 l hst, fun l2 hl2 => ?_⟩
      have h2 : some l = some l2 := hl2
      rw [Option.some_inj] at h2
      exact h2 ▸ ih.2 l hst

/-- A point whose rowNum 300 lies outside [1, 215]. -/
def badPoint : PointData := { id := "bad", x := 0, y := 0, size := 24, rowNum := 300 }

/-- Counterexample to C2 as stated: `addPoint` performs no range check, so the
store state after a single `addPoint` with rowNum 300 is reachable and holds a
point outside [1, 215]. -/
theorem rowRange_counterexample :
    Reach (addPoint initState badPoint) ∧
    ¬ (∀ p ∈ (addPoint initState badPoint).points, rowInRange p.rowNum) :=
  ⟨Reach.add initState badPoint Reach.init, by decide⟩

/-- C2 (amended): at every state reachable when each `addPoint` argument has an
in-range rowNum — which the in-repo caller `addPointAtPosition` checks before
calling — every point in the model satisfies 1 ≤ rowNum ≤ 215. -/
theorem reachValid_rowRange (s : StoreState) (h : ReachValid s) :
    ∀ p ∈ s.points, 1 ≤ p.rowNum ∧ p.rowNum ≤ 215 :=
  (reachValid_rangeInv s h).1

/-- Witness for C2 (amended): in the concrete reachable state built by adding
row 1 and reloading from storage, the stored point lies in range. -/
theorem reachValid_rowRange_witness :
    1 ≤ pointRow1.rowNum ∧ pointRow1.rowNum ≤ 215 :=
  reachValid_rowRange (loadFromLocal (addPoint initState pointRow1))
    (ReachValid.load _ (ReachValid.add initState pointRow1 (by decide) ReachValid.init))
    pointRow1 (by decide)

/-! ### C8: removePoint -/

lemma removeFirst_eq_of_not_mem {id : String} : ∀ {l : List PointData},
    (∀ p ∈ l, p.id ≠ id) → removeFirst id l = (l, none) := by
  intro l
  induction l with
  | nil => intro _; rfl
  | cons p ps ih =>
    intro h
    unfold removeFirst
    rw [if_neg (h p (List.mem_cons_self p ps)),
      ih (fun q hq => h q (List.mem_cons_of_mem p hq))]

lemma removeFirst_some {id : String} : ∀ {l : List PointData} {q : PointData},
    (removeFirst id l).2 = some q →
    q.id = id ∧ ∃ l1 l2, l = l1 ++ q :: l2 ∧ (∀ p ∈ l1, p.id ≠ id) ∧
      (removeFirst id l).1 = l1 ++ l2 := by
  intro l
  induction l with
  | nil => intro q h; exact absurd h (by simp [removeFirst])
  | cons p ps ih =>
    intro q h
    by_cases hp : p.id = id
    · unfold removeFirst at h ⊢
      rw [if_pos hp] at h ⊢
      have hpq : p = q := by simpa using h
      subst hpq
      exact ⟨hp, [], ps, rfl, by simp, rfl⟩
    · unfold removeFirst at h ⊢
      rw [if_neg hp] at h ⊢
      obtain ⟨hid, l1, l2, hsplit, hl1, hfst⟩ := ih h
      refine ⟨hid, p :: l1, l2, by rw [List.cons_append, ← hsplit], ?_, ?_⟩
      · intro r hr
        rcases List.mem_cons.mp hr with h1 | h1
        · exact h1 ▸ hp
        · exact hl1 r h1
      · show p :: (removeFirst id ps).1 = (p :: l1) ++ l2
        rw [hfst, List.cons_append]

/-- C8: `removePoint` returns `none` and changes nothing when no point has the
id; otherwise it removes exactly the first point with that id, returns it,
clears the selection when that id was selected, and keeps the selection
otherwise. -/
theorem removePoint_spec (s : StoreState) (id : String) :
    ((∀ p ∈ s.points, p.id ≠ id) → removePoint s id = (s, none)) ∧
    (∀ q : PointData, (removePoint s id).2 = some q →
      q.id = id ∧
      (∃ l1 l2, s.points = l1 ++ q :: l2 ∧ (∀ p ∈ l1, p.id ≠ id) ∧
        (removePoint s id).1.points = l1 ++ l2) ∧
      (s.selectedPointId = some id → (removePoint s id).1.selectedPointId = none) ∧
      (s.selectedPointId ≠ some id →
        (removePoint s id).1.selectedPointId = s.selectedPointId)) := by
  constructor
  · intro h
    unfold removePoint
    rw [removeFirst_eq_of_not_mem h]
  · intro q h
    unfold removePoint at h ⊢
    rcases hrf : removeFirst id s.points with ⟨pts, r⟩
    rw [hrf] at h
    cases r with
    | none => exact absurd h (by simp)
    | some p =>
      have hpq : p = q := by simpa using h
      subst hpq
      obtain ⟨hid, l1, l2, hsplit, hl1, hfst⟩ :=
        removeFirst_some (l := s.points) (q := p) (by rw [hrf])
      refine ⟨hid, ⟨l1, l2, hsplit, hl1, ?_⟩, ?_, ?_⟩
      · show pts = l1 ++ l2
        rw [← hfst, hrf]
      · intro hsel
        show (if s.selectedPointId = some id then none else s.selectedPointId) = none
        rw [if_pos hsel]
      · intro hsel
        show (if s.selectedPointId = some id then none else s.selectedPointId) = s.selectedPointId
        rw [if_neg hsel]

/-- A store holding `pointRow1` with it selected (its id is "a"). -/
def selState : StoreState :=
  { points := [pointRow1], selectedPointId := some "a", storage := none, notifications := 0 }

/-- Witness for C8: removing a missing id leaves `selState` intact and returns
`none`; removing the selected id "a" clears the selection. -/
theorem removePoint_spec_witness :
    removePoint selState "zz" = (selState, none) ∧
    (removePoint selState "a").1.selectedPointId = none :=
  ⟨(removePoint_spec selState "zz").1 (by decide),
   ((removePoint_spec selState "a").2 pointRow1 (by decide)).2.2.1 (by decide)⟩

/-! ### C3 and C10: importPoints -/

lemma buildImports_length : ∀ (n : ℕ) (data : List RawPoint),
    (buildImports n data).length
      = (data.filter (fun it => decide (rowInRange it.rowNum))).length := by
  intro n data
  induction data generalizing n with
  | nil => rfl
  | cons it rest ih =>
    unfold buildImports
    by_cases h : rowInRange it.rowNum
    · rw [if_pos h, List.filter_cons_of_pos (by simpa using h)]
      simp [ih (n + 1)]
    · rw [if_neg h, List.filter_cons_of_neg (by simpa using h)]
      exact ih (n + 1)

lemma buildImports_map_id (f : RawPoint → String) : ∀ (n : ℕ) (data : List RawPoint),
    buildImports n (data.map (fun it => { it with id := f it })) = buildImports n data := by
  intro n data
  induction data generalizing n with
  | nil => rfl
  | cons it rest ih =>
    simp only [List.map_cons]
    unfold buildImports
    by_cases h : rowInRange it.rowNum
    · rw [if_pos h, if_pos h, ih (n + 1)]
    · rw [if_neg h, if_neg h, ih (n + 1)]

lemma buildImports_countP (r : ℤ) (hr : rowInRange r) :
    ∀ (n : ℕ) (data : List RawPoint),
      (buildImports n data).countP (fun q => decide (q.rowNum = r))
        = data.countP (fun it => decide (it.rowNum = r)) := by
  intro n data
  induction data generalizing n with
  | nil => rfl
  | cons it rest ih =>
    unfold buildImports
    by_cases h : rowInRange it.rowNum
    · rw [if_pos h, List.countP_cons, List.countP_cons, ih (n + 1)]
    · rw [if_neg h, List.countP_cons, ih (n + 1)]
      have hne : decide (it.rowNum = r) = false :=
        decide_eq_false (fun hEq => h (hEq ▸ hr))
      rw [hne]
      simp

/-- C3: `importPoints` replaces the whole point list; it keeps exactly the
items with in-range rows (so a valid subset of size k yields k points), sorts
the result ascending by rowNum, copies x/y/rowNum, defaults a missing size to
24, gives every point a generated id, and never depends on caller-supplied
ids. -/
theorem importPoints_spec :
    (∀ (s : StoreState) (data : List RawPoint),
        (importPointsState s data).points = importPoints data) ∧
    (∀ data : List RawPoint,
        (importPoints data).length
          = (data.filter (fun it => decide (rowInRange it.rowNum))).length) ∧
    (∀ data : List RawPoint, (importPoints data).Pairwise rowLe) ∧
    (∀ (data : List RawPoint) (q : PointData), q ∈ importPoints data →
        ∃ it ∈ data, rowInRange it.rowNum ∧ q.x = it.x ∧ q.y = it.y ∧
          q.rowNum = it.rowNum ∧ q.size = sizeOrDefault it.size ∧
          (it.size = none → q.size = 24) ∧ ∃ m, q.id = genId it.rowNum m) ∧
    (∀ (data : List RawPoint) (f : RawPoint → String),
        importPoints (data.map (fun it => { it with id := f it })) = importPoints data) := by
  refine ⟨fun s data => rfl, ?_, fun data => sortByRow_sorted _, ?_, ?_⟩
  · intro data
    exact ((sortByRow_perm _).length_eq).trans (buildImports_length 0 data)
  · intro data q hq
    obtain ⟨it, hm, hr, hx, hy, hrow, hsz, hid⟩ := mem_importPoints hq
    exact ⟨it, hm, hr, hx, hy, hrow, hsz, fun hnone => by rw [hsz, hnone]; rfl, hid⟩
  · intro data f
    unfold importPoints
    rw [buildImports_map_id f 0 data]

/-- A raw import item on row 9 with no size field. -/
def rawItem9 : RawPoint := { id := "caller-id", x := 3, y := 4, size := none, rowNum := 9 }

/-- The point `importPoints [rawItem9]` produces. -/
def q9 : PointData := { id := genId 9 0, x := 3, y := 4, size := 24, rowNum := 9 }

/-- Witness for C3: importing one valid sizeless item yields one point whose
fields are copied, size defaulted to 24 and id generated. -/
theorem importPoints_spec_witness :
    (importPoints [rawItem9]).length = 1 ∧
    ∃ it ∈ [rawItem9], rowInRange it.rowNum ∧ q9.x = it.x ∧ q9.y = it.y ∧
      q9.rowNum = it.rowNum ∧ q9.size = sizeOrDefault it.size ∧
      (it.size = none → q9.size = 24) ∧ ∃ m, q9.id = genId it.rowNum m :=
  ⟨by rw [importPoints_spec.2.1 [rawItem9]]; decide,
   importPoints_spec.2.2.2.1 [rawItem9] q9 (by decide)⟩

/-- Two distinct import items that share the in-range rowNum 5. -/
def dupA : RawPoint := { id := "da", x := 1, y := 2, size := some 24, rowNum := 5 }

/-- Second item on row 5. -/
def dupB : RawPoint := { id := "db", x := 3, y := 4, size := some 24, rowNum := 5 }

/-- C10: `importPoints` does not deduplicate by rowNum — for every in-range
row, the output has exactly as many points on that row as the input; in
particular importing two items on row 5 keeps both. -/
theorem importPoints_keeps_duplicate_rows :
    (∀ (data : List RawPoint) (r : ℤ), rowInRange r →
      (importPoints data).countP (fun q => decide (q.rowNum = r))
        = data.countP (fun it => decide (it.rowNum = r))) ∧
    (importPoints [dupA, dupB]).countP (fun q => decide (q.rowNum = 5)) = 2 := by
  constructor
  · intro data r hr
    unfold importPoints
    rw [(sortByRow_perm (buildImports 0 data)).countP_eq]
    exact buildImports_countP r hr 0 data
  · decide

/-- Witness for C10 at the concrete two-item input on row 5. -/
theorem importPoints_keeps_duplicate_rows_witness :
    (importPoints [dupA, dupB]).countP (fun q => decide (q.rowNum = 5))
      = List.countP (fun it => decide (it.rowNum = 5)) [dupA, dupB] :=
  importPoints_keeps_duplicate_rows.1 [dupA, dupB] 5 (by decide)

/-! ### C4: marker visual size -/

/-- Counterexample to C4 as stated: the code sets the circle radius to
`(size / scale) / 2`, so at size 24 and scale 1 the radius is 12, not the
claimed `size / scale = 24`. -/
theorem visualRadius_counterexample :
    visualRadius 24 1 = 12 ∧ visualRadius 24 1 ≠ 24 / 1 := by
  constructor <;> norm_num [visualRadius]

/-- C4 (amended): the rendered circle radius is `size / (2 * scale)` — the
visual *diameter* is `size / scale` — so its apparent on-screen radius
`scale * radius` is the constant `size / 2`; stroke width and font size scale
as `2 / scale` and `11 / scale` only until their floors of 1 and 8 bind. -/
theorem markerSize_spec (size scale : ℚ) (h : 0 < scale) :
    visualRadius size scale = size / (2 * scale) ∧
    scale * visualRadius size scale = size / 2 ∧
    (scale ≤ 2 → strokeWidthFor scale = 2 / scale) ∧
    (2 ≤ scale → strokeWidthFor scale = 1) ∧
    (scale ≤ 11/8 → fontSizeFor scale = 11 / scale) ∧
    (11/8 ≤ scale → fontSizeFor scale = 8) := by
  refine ⟨?_, ?_, ?_, ?_, ?_, ?_⟩
  · unfold visualRadius
    rw [div_div, mul_comm]
  · unfold visualRadius
    field_simp
    ring
  · intro hle
    exact max_eq_right ((one_le_div h).mpr hle)
  · intro hle
    exact max_eq_left ((div_le_one h).mpr hle)
  · intro hle
    refine max_eq_right ((le_div_iff₀ h).mpr ?_)
    linarith
  · intro hle
    refine max_eq_left ((div_le_iff₀ h).mpr ?_)
    linarith

/-- Witness for C4 (amended) at size 24, scale 1. -/
theorem markerSize_spec_witness :
    visualRadius 24 1 = 24 / (2 * 1) ∧ (1 : ℚ) * visualRadius 24 1 = 24 / 2 ∧
    strokeWidthFor 1 = 2 / 1 ∧ fontSizeFor 1 = 11 / 1 :=
  ⟨(markerSize_spec 24 1 (by norm_num)).1,
   (markerSize_spec 24 1 (by norm_num)).2.1,
   (markerSize_spec 24 1 (by norm_num)).2.2.1 (by norm_num),
   (markerSize_spec 24 1 (by norm_num)).2.2.2.2.1 (by norm_num)⟩

/-! ### C6: fitToContent -/

/-- C6: `fitToContent` scales the 72% x 48% content sub-region (left margin
15%, top margin 28%) to the container with a 0.92 margin, clamps the scale to
[0.3, 4], and places the sub-region's center at the container's center. -/
theorem fitToContent_spec (iw ih cw ch : ℚ) (_hiw : 0 < iw) (_hih : 0 < ih) :
    (fitToContent iw ih cw ch).scale
        = max (3/10) (min 4 (min (cw / (iw * (72/100))) (ch / (ih * (48/100))) * (92/100))) ∧
    3/10 ≤ (fitToContent iw ih cw ch).scale ∧
    (fitToContent iw ih cw ch).scale ≤ 4 ∧
    (iw * (15/100) + iw * (72/100) / 2) * (fitToContent iw ih cw ch).scale
        + (fitToContent iw ih cw ch).offsetX = cw / 2 ∧
    (ih * (28/100) + ih * (48/100) / 2) * (fitToContent iw ih cw ch).scale
        + (fitToContent iw ih cw ch).offsetY = ch / 2 := by
  set c := max (3/10) (min 4 (min (cw / (iw * (72/100))) (ch / (ih * (48/100))) * (92/100)))
    with hc
  have h1 : (3 : ℚ)/10 ≤ c := le_max_left _ _
  have h2 : c ≤ 4 := max_le (by norm_num) (min_le_left _ _)
  have hs : setScaleClamp c = c := by
    unfold setScaleClamp
    rw [min_eq_right (le_trans h2 (by norm_num)), max_eq_right (le_trans (by norm_num) h1)]
  have hscale : (fitToContent iw ih cw ch).scale = c := hs
  refine ⟨hscale, hscale ▸ h1, hscale ▸ h2, ?_, ?_⟩
  · show (iw * (15/100) + iw * (72/100) / 2) * setScaleClamp c
        + (cw / 2 - (iw * (15/100) + iw * (72/100) / 2) * c) = cw / 2
    rw [hs]
    ring
  · show (ih * (28/100) + ih * (48/100) / 2) * setScaleClamp c
        + (ch / 2 - (ih * (28/100) + ih * (48/100) / 2) * c) = ch / 2
    rw [hs]
    ring

/-- Witness for C6 on a 1000 x 800 image in a 720 x 480 container. -/
theorem fitToContent_spec_witness :
    3/10 ≤ (fitToContent 1000 800 720 480).scale ∧
    (fitToContent 1000 800 720 480).scale ≤ 4 :=
  ⟨(fitToContent_spec 1000 800 720 480 (by norm_num) (by norm_num)).2.1,
   (fitToContent_spec 1000 800 720 480 (by norm_num) (by norm_num)).2.2.1⟩

/-! ### C5: export / import round-trip -/

/-- The raw item that export-then-normalise produces for a point: id dropped,
x/y copied, size present, rowNum taken from the legacy `row` field. -/
def toRawPoint (p : PointData) : RawPoint :=
  { id := "", x := p.x, y := p.y, size := some p.size, rowNum := p.rowNum }

lemma normalize_export (excelData : List PlateData) (points : List PointData) :
    (exportFullData excelData points).map normalizeRecord = points.map toRawPoint := by
  unfold exportFullData
  rw [List.map_map]
  apply List.map_congr_left
  intro p _
  show normalizeRecord (match getPlateData excelData p.rowNum with
    | some pd => { row := p.rowNum, x := p.x, y := p.y, size := p.size,
                   plate := some pd.plate, signals := some pd.signals }
    | none => { row := p.rowNum, x := p.x, y := p.y, size := p.size,
                plate := none, signals := none }) = toRawPoint p
  cases getPlateData excelData p.rowNum <;> rfl

lemma buildImports_proj : ∀ (points : List PointData) (n : ℕ),
    (∀ p ∈ points, rowInRange p.rowNum ∧ p.size ≠ 0) →
    (buildImports n (points.map toRawPoint)).map proj = points.map proj := by
  intro points
  induction points with
  | nil => intro n _; rfl
  | cons p rest ih =>
    intro n h
    simp only [List.map_cons]
    unfold buildImports
    simp only [toRawPoint]
    rw [if_pos (h p (List.mem_cons_self p rest)).1]
    simp only [List.map_cons]
    congr 1
    · show (p.rowNum, p.x, p.y, sizeOrDefault (some p.size)) = proj p
      simp [proj, sizeOrDefault, (h p (List.mem_cons_self p rest)).2]
    · exact ih (n + 1) (fun q hq => h q (List.mem_cons_of_mem p hq))

/-- A point with size 0 — reachable, e.g. after `setCircleSize(0)`. -/
def zeroSizePoint : PointData := { id := "z", x := 1, y := 2, size := 0, rowNum := 1 }

/-- Counterexample to C5 as stated: exporting a point of size 0 and importing
the export yields size 24, because `item.size || 24` in `importPoints` treats
the (present) size 0 as falsy; the (rowNum, x, y, size) multiset changes. -/
theorem roundTrip_counterexample :
    ¬ ((importPoints ((exportFullData [] [zeroSizePoint]).map normalizeRecord)).map proj).Perm
      ([zeroSizePoint].map proj) := by decide

/-- C5 (amended): for point sets whose rows are all in [1, 215] and whose
sizes are all nonzero, export followed by import through the
`handleJSONImport` normalisation reproduces the same multiset of
(rowNum, x, y, size), ids free to differ. -/
theorem exportImport_roundTrip (excelData : List PlateData) (points : List PointData)
    (h : ∀ p ∈ points, rowInRange p.rowNum ∧ p.size ≠ 0) :
    ((importPoints ((exportFullData excelData points).map normalizeRecord)).map proj).Perm
      (points.map proj) := by
  rw [normalize_export excelData points]
  unfold importPoints
  refine ((sortByRow_perm _).map proj).trans ?_
  rw [buildImports_proj points 0 h]

/-- An ordinary point for the round-trip witness. -/
def goodPoint : PointData := { id := "g", x := 10, y := 20, size := 24, rowNum := 7 }

/-- Witness for C5 (amended) on a one-point set. -/
theorem exportImport_roundTrip_witness :
    ((importPoints ((exportFullData [] [goodPoint]).map normalizeRecord)).map proj).Perm
      ([goodPoint].map proj) :=
  exportImport_roundTrip [] [goodPoint] (by decide)
